import Mathlib

/-!
Verification of the note-taking widget in
`src/assets/Aplikasi/CatatanOnline.jsx`.

The development shallowly embeds the component's data model and handlers:
* `Note` / `ComponentState` mirror the record `{id, text}` and the React
  state (`notes`, `input`, `editId`, `sync`).
* `stringifyNotes` / `parseNotes` embed the `JSON.stringify` / `JSON.parse`
  pair used by `useLocalStorage` on the canonical serialization image (an
  array of objects with keys `id` then `text`, as `JSON.stringify` emits
  them); `jsonParse` / `loadJson` embed `JSON.parse` and the read path
  over arbitrary stored text at the JavaScript value level.
* `handleAddOrEdit`, `handleDelete`, `handleEdit` embed the event handlers.
* `debounceStep` / `debounceRun` embed the trailing-edge debounce of
  `handleInput` (clearTimeout + setTimeout 100ms).
* `useFetchEffect` / `pulseTrace` embed the `useFetch` effect body and the
  two effect runs caused by one `setSync(true)`-then-reset pulse.
-/

namespace Catatan

/-- A note record `{id, text}`; `id` is the creation timestamp from
`Date.now()` (a nonnegative integer number of milliseconds). -/
structure Note where
  id : Nat
  text : String
deriving DecidableEq

/-- The ECMA-262 WhiteSpace and LineTerminator code points removed by
`String.prototype.trim`. -/
def isJsWhitespace (c : Char) : Bool :=
  c.toNat = 9 || c.toNat = 10 || c.toNat = 11 || c.toNat = 12 || c.toNat = 13 ||
  c.toNat = 32 || c.toNat = 160 || c.toNat = 5760 ||
  (8192 ≤ c.toNat && c.toNat ≤ 8202) ||
  c.toNat = 8232 || c.toNat = 8233 || c.toNat = 8239 || c.toNat = 8287 ||
  c.toNat = 12288 || c.toNat = 65279

/-- JavaScript `String.prototype.trim`: drop leading and trailing
whitespace. -/
def jsTrim (s : String) : String :=
  String.mk (((s.data.dropWhile isJsWhitespace).reverse.dropWhile
    isJsWhitespace).reverse)

/- Characters that are awkward as literals are named. -/

/-- The double-quote character. -/
def quoteChar : Char := Char.ofNat 34

/-- The backslash character. -/
def backslashChar : Char := Char.ofNat 92

/-- The opening-brace character of a JSON object. -/
def lbraceChar : Char := Char.ofNat 123

/-- The closing-brace character of a JSON object. -/
def rbraceChar : Char := Char.ofNat 125

/-- The opening-bracket character of a JSON array. -/
def lbrackChar : Char := Char.ofNat 91

/-- The closing-bracket character of a JSON array. -/
def rbrackChar : Char := Char.ofNat 93

/-- Lower-case hexadecimal digit for `n < 16`, as `JSON.stringify` emits in
`\u00XX` escapes. -/
def hexDigitChar (n : Nat) : Char :=
  if n < 10 then Char.ofNat (48 + n) else Char.ofNat (87 + n)

/-- How `JSON.stringify` escapes one character of a string value:
quote and backslash get a backslash escape, the named control characters
get their short escapes, the remaining control characters get `\u00XX`,
and every other character is emitted literally. -/
def escapeChar (c : Char) : List Char :=
  if c = quoteChar then [backslashChar, quoteChar]
  else if c = backslashChar then [backslashChar, backslashChar]
  else if c = Char.ofNat 8 then [backslashChar, 'b']
  else if c = Char.ofNat 12 then [backslashChar, 'f']
  else if c = Char.ofNat 10 then [backslashChar, 'n']
  else if c = Char.ofNat 13 then [backslashChar, 'r']
  else if c = Char.ofNat 9 then [backslashChar, 't']
  else if c.toNat < 32 then
    [backslashChar, 'u', '0', '0',
      hexDigitChar (c.toNat / 16), hexDigitChar (c.toNat % 16)]
  else [c]

/-- `JSON.stringify` escaping applied to a whole string body. -/
def escapeString (cs : List Char) : List Char := cs.flatMap escapeChar

/-- The decimal digit characters of `n`, most significant first, as
`JSON.stringify` prints a nonnegative integer number. -/
def natDigits (n : Nat) : List Char :=
  if n < 10 then [Char.ofNat (48 + n)]
  else natDigits (n / 10) ++ [Char.ofNat (48 + n % 10)]
termination_by n
decreasing_by
  simp only [not_lt] at *
  omega

/-- The literal `{"id":` opening a serialized note. -/
def idKeyLit : List Char := [lbraceChar, quoteChar, 'i', 'd', quoteChar, ':']

/-- The literal `,"text":"` between the two fields of a serialized note. -/
def textKeyLit : List Char :=
  [',', quoteChar, 't', 'e', 'x', 't', quoteChar, ':', quoteChar]

/-- `JSON.stringify` of one note object `{id: …, text: …}` (object-literal
key order `id`, `text`). -/
def stringifyNote (n : Note) : List Char :=
  idKeyLit ++ natDigits n.id ++ textKeyLit ++ escapeString n.text.data ++
    [quoteChar, rbraceChar]

/-- `JSON.stringify` of the comma-separated items of the note array. -/
def stringifyItems : List Note → List Char
  | [] => []
  | [n] => stringifyNote n
  | n :: ns => stringifyNote n ++ ',' :: stringifyItems ns

/-- `JSON.stringify` of the full note list (the serialization written by
`useLocalStorage.save` and posted by `useFetch`). -/
def stringifyNotes (l : List Note) : String :=
  String.mk (lbrackChar :: stringifyItems l ++ [rbrackChar])

/-- Value of one hexadecimal digit character, as `JSON.parse` reads a
`\uXXXX` escape; `none` on a non-hex character. -/
def hexVal (c : Char) : Option Nat :=
  if 48 ≤ c.toNat ∧ c.toNat ≤ 57 then some (c.toNat - 48)
  else if 97 ≤ c.toNat ∧ c.toNat ≤ 102 then some (c.toNat - 87)
  else if 65 ≤ c.toNat ∧ c.toNat ≤ 70 then some (c.toNat - 55)
  else none

/-- `JSON.parse` of a `\uXXXX` escape after the `\u`: four hexadecimal
digits decoded to one character; returns it and the remaining input. -/
def parseHexQuad : List Char → Option (Char × List Char)
  | a :: b :: c :: d :: rest =>
    match hexVal a, hexVal b, hexVal c, hexVal d with
    | some x1, some x2, some x3, some x4 =>
      some (Char.ofNat (((x1 * 16 + x2) * 16 + x3) * 16 + x4), rest)
    | _, _, _, _ => none
  | _ => none

/-- `JSON.parse` of a string body after the opening quote: literal
characters up to the closing quote, with the JSON escape sequences;
raw control characters are rejected as JSON.parse rejects them.
Returns the decoded characters and the input after the closing quote.
The `fuel` argument only bounds the recursion depth: every step consumes
at least one input character per fuel unit, so any `fuel` of at least
the input length (as the callers supply) behaves as the unbounded
parser. -/
def parseStringBody : Nat → List Char → Option (List Char × List Char)
  | 0, _ => none
  | _ + 1, [] => none
  | fuel + 1, c :: rest =>
    if c = quoteChar then some ([], rest)
    else if c = backslashChar then
      match rest with
      | [] => none
      | e :: rest2 =>
        if e = quoteChar then
          (parseStringBody fuel rest2).map (fun p => (quoteChar :: p.1, p.2))
        else if e = backslashChar then
          (parseStringBody fuel rest2).map (fun p =>
            (backslashChar :: p.1, p.2))
        else if e = '/' then
          (parseStringBody fuel rest2).map (fun p => ('/' :: p.1, p.2))
        else if e = 'b' then
          (parseStringBody fuel rest2).map (fun p => (Char.ofNat 8 :: p.1, p.2))
        else if e = 'f' then
          (parseStringBody fuel rest2).map (fun p =>
            (Char.ofNat 12 :: p.1, p.2))
        else if e = 'n' then
          (parseStringBody fuel rest2).map (fun p =>
            (Char.ofNat 10 :: p.1, p.2))
        else if e = 'r' then
          (parseStringBody fuel rest2).map (fun p =>
            (Char.ofNat 13 :: p.1, p.2))
        else if e = 't' then
          (parseStringBody fuel rest2).map (fun p => (Char.ofNat 9 :: p.1, p.2))
        else if e = 'u' then
          match parseHexQuad rest2 with
          | some (ch, rest3) =>
            (parseStringBody fuel rest3).map (fun p => (ch :: p.1, p.2))
          | none => none
        else none
    else if c.toNat < 32 then none
    else (parseStringBody fuel rest).map (fun p => (c :: p.1, p.2))

/-- Digit-consuming loop of the integer parser: accumulate decimal digits,
stop at the first non-digit. -/
def parseNatAux : List Char → Nat → Nat × List Char
  | [], acc => (acc, [])
  | c :: rest, acc =>
    if c.isDigit then parseNatAux rest (acc * 10 + (c.toNat - 48))
    else (acc, c :: rest)

/-- `JSON.parse` of a nonnegative integer: one digit `0`, or a nonzero
leading digit followed by more digits (JSON forbids leading zeros). -/
def parseNat : List Char → Option (Nat × List Char)
  | [] => none
  | c :: rest =>
    if c = '0' then some (0, rest)
    else if c.isDigit then some (parseNatAux rest (c.toNat - 48))
    else none

/-- Drop an exact literal prefix, or fail. -/
def dropLit : List Char → List Char → Option (List Char)
  | [], cs => some cs
  | _ :: _, [] => none
  | p :: ps, c :: cs => if c = p then dropLit ps cs else none

/-- `JSON.parse` of one note object in the serialized key order
`{"id":N,"text":"…"}`; returns the note and the remaining input. -/
def parseNoteFields (cs : List Char) : Option (Note × List Char) :=
  (dropLit idKeyLit cs).bind fun rest =>
  (parseNat rest).bind fun vp =>
  (dropLit textKeyLit vp.2).bind fun rest2 =>
  (parseStringBody rest2.length rest2).bind fun tp =>
  match tp.2 with
  | [] => none
  | c :: rest4 =>
    if c = rbraceChar then some (⟨vp.1, String.mk tp.1⟩, rest4) else none

/-- `JSON.parse` of the comma-separated items of the note array; `fuel`
bounds the recursion (one unit per item suffices). -/
def parseItems : Nat → List Char → Option (List Note × List Char)
  | 0, _ => none
  | fuel + 1, cs =>
    (parseNoteFields cs).bind fun np =>
      match np.2 with
      | [] => some ([np.1], [])
      | c :: rest2 =>
        if c = ',' then
          (parseItems fuel rest2).map (fun q => (np.1 :: q.1, q.2))
        else some ([np.1], c :: rest2)

/-- The restriction of `JSON.parse` to the canonical text emitted by
`stringifyNotes`, over the character list: a bracketed array of note
objects with the keys in serialization order and no insignificant
whitespace. This restricted reader is what the save-then-load round
trip needs — on the canonical image it provably agrees with
`JSON.parse` — and is deliberately narrower than `JSON.parse` on other
text (which also accepts whitespace, any key order, and non-array
values); the full `JSON.parse` behavior over arbitrary text is
modelled by `jsonParse` below. -/
def parseNotesList : List Char → Option (List Note)
  | [] => none
  | c :: rest =>
    if c = lbrackChar then
      if rest = [rbrackChar] then some []
      else
        match parseItems rest.length rest with
        | some (ns, rem) => if rem = [rbrackChar] then some ns else none
        | none => none
    else none

/-- The restriction of `JSON.parse` to the canonical text emitted by
`stringifyNotes` (see `parseNotesList`); the unrestricted model of
`JSON.parse` is `jsonParse`. -/
def parseNotes (s : String) : Option (List Note) :=
  parseNotesList s.data

/-- The browser `localStorage`, modelled as an association list of slots;
`setItem` prepends and `getItem` takes the first binding. -/
abbrev Store := List (String × String)

/-- `localStorage.getItem key`: `none` models the JS `null` for an absent
slot. -/
def Store.get (st : Store) (key : String) : Option String :=
  (st.find? (fun p => p.1 == key)).map (fun p => p.2)

/-- `useLocalStorage`'s write path: `setItem(key, JSON.stringify(value))`. -/
def save (st : Store) (key : String) (value : List Note) : Store :=
  (key, stringifyNotes value) :: st

/-- `useLocalStorage`'s read path restricted to the canonical
serialization image:
`item = getItem(key); return item ? JSON.parse(item) : initialValue`,
with the thrown parse error caught and turned into `initialValue`, and
the parse given by `parseNotes`. An empty stored string is falsy in JS,
so it also yields the default. On the slot contents that `save` writes
this agrees with the program (the round-trip theorem only exercises that
image); the unrestricted read path over arbitrary stored text, which
returns whatever `JSON.parse` yields with no shape check, is modelled
separately by `loadJson` below. -/
def load (st : Store) (key : String) (dflt : List Note) : List Note :=
  (((Store.get st key).bind fun item =>
    if item.data.isEmpty then none else parseNotes item).getD dflt)

/-- A JavaScript value as produced by `JSON.parse`: null, a boolean, a
number, a string, an array, or an object. A number is kept as its
lexical token (the conversion to an IEEE-754 double is outside the
scope of this model); an object keeps its fields in textual order
(JavaScript applies last-wins for duplicate keys; no claim here depends
on that corner). -/
inductive JsonVal where
  | null
  | bool (b : Bool)
  | num (tok : String)
  | str (s : String)
  | arr (items : List JsonVal)
  | obj (fields : List (String × JsonVal))

/-- The insignificant whitespace of the JSON grammar: space, tab, line
feed, carriage return. -/
def isJsonWs (c : Char) : Bool :=
  c.toNat = 32 || c.toNat = 9 || c.toNat = 10 || c.toNat = 13

/-- Drop insignificant JSON whitespace. -/
def skipWs (cs : List Char) : List Char := cs.dropWhile isJsonWs

/-- One or more decimal digits, maximal munch; `none` if the input does
not start with a digit. -/
def span1Digits (cs : List Char) : Option (List Char × List Char) :=
  match cs with
  | c :: rest =>
    if c.isDigit then
      some (c :: rest.takeWhile Char.isDigit, rest.dropWhile Char.isDigit)
    else none
  | [] => none

/-- The optional fraction part of a JSON number: a dot followed by one or
more digits, or nothing. -/
def parseFrac (cs : List Char) : Option (List Char × List Char) :=
  match cs with
  | c :: rest =>
    if c = '.' then (span1Digits rest).map (fun p => (c :: p.1, p.2))
    else some ([], c :: rest)
  | [] => some ([], [])

/-- The optional exponent part of a JSON number: `e` or `E`, an optional
sign, and one or more digits, or nothing. -/
def parseExp (cs : List Char) : Option (List Char × List Char) :=
  match cs with
  | c :: rest =>
    if c = 'e' ∨ c = 'E' then
      match rest with
      | d :: rest2 =>
        if d = '+' ∨ d = '-' then
          (span1Digits rest2).map (fun p => (c :: d :: p.1, p.2))
        else (span1Digits rest).map (fun p => (c :: p.1, p.2))
      | [] => none
    else some ([], c :: rest)
  | [] => some ([], [])

/-- A JSON number token: optional minus, an integer part with no leading
zero, optional fraction, optional exponent. Returns the token characters
and the remaining input. -/
def parseNumTok (cs : List Char) : Option (List Char × List Char) :=
  let p0 : List Char × List Char :=
    match cs with
    | c :: rest => if c = '-' then ([c], rest) else ([], c :: rest)
    | [] => ([], [])
  match p0.2 with
  | [] => none
  | c :: rest =>
    (if c = '0' then some ([c], rest)
     else if c.isDigit then
       some (c :: rest.takeWhile Char.isDigit, rest.dropWhile Char.isDigit)
     else none).bind fun ip =>
    (parseFrac ip.2).bind fun fp =>
    (parseExp fp.2).map fun ep => (p0.1 ++ ip.1 ++ fp.1 ++ ep.1, ep.2)

/-- Parsing context for `jsonP`: a single value, the elements of an array
after its opening bracket, or the fields of an object after its opening
brace. -/
inductive JMode where
  | val
  | elems
  | fields

/-- The `JSON.parse` grammar over characters. In `val` mode it parses one
JSON value (with leading whitespace); in `elems` mode the non-empty
element list of an array up to and including the closing bracket,
returning the `arr` value; in `fields` mode the non-empty field list of
an object up to and including the closing brace, returning the `obj`
value. The `fuel` argument only bounds recursion depth: a parse that
succeeds consumes at least one character per two fuel units spent, so
the top-level fuel supplied by `jsonParse` never starves a parse that
`JSON.parse` would accept. -/
def jsonP : Nat → JMode → List Char → Option (JsonVal × List Char)
  | 0, _, _ => none
  | fuel + 1, JMode.val, cs =>
    match skipWs cs with
    | [] => none
    | c :: rest =>
      if c = quoteChar then
        (parseStringBody rest.length rest).map fun p =>
          (JsonVal.str (String.mk p.1), p.2)
      else if c = lbrackChar then
        match skipWs rest with
        | d :: rest2 =>
          if d = rbrackChar then some (JsonVal.arr [], rest2)
          else jsonP fuel JMode.elems (d :: rest2)
        | [] => none
      else if c = lbraceChar then
        match skipWs rest with
        | d :: rest2 =>
          if d = rbraceChar then some (JsonVal.obj [], rest2)
          else jsonP fuel JMode.fields (d :: rest2)
        | [] => none
      else if c = 't' then
        (dropLit ['r', 'u', 'e'] rest).map fun r => (JsonVal.bool true, r)
      else if c = 'f' then
        (dropLit ['a', 'l', 's', 'e'] rest).map fun r => (JsonVal.bool false, r)
      else if c = 'n' then
        (dropLit ['u', 'l', 'l'] rest).map fun r => (JsonVal.null, r)
      else
        (parseNumTok (c :: rest)).map fun p => (JsonVal.num (String.mk p.1), p.2)
  | fuel + 1, JMode.elems, cs =>
    (jsonP fuel JMode.val cs).bind fun vp =>
      match skipWs vp.2 with
      | c :: rest =>
        if c = ',' then
          (jsonP fuel JMode.elems rest).bind fun ap =>
            match ap.1 with
            | JsonVal.arr items => some (JsonVal.arr (vp.1 :: items), ap.2)
            | _ => none
        else if c = rbrackChar then some (JsonVal.arr [vp.1], rest)
        else none
      | [] => none
  | fuel + 1, JMode.fields, cs =>
    match skipWs cs with
    | c :: rest =>
      if c = quoteChar then
        (parseStringBody rest.length rest).bind fun kp =>
          match skipWs kp.2 with
          | d :: rest2 =>
            if d = ':' then
              (jsonP fuel JMode.val rest2).bind fun vp =>
                match skipWs vp.2 with
                | e :: rest3 =>
                  if e = ',' then
                    (jsonP fuel JMode.fields rest3).bind fun op =>
                      match op.1 with
                      | JsonVal.obj fs =>
                        some (JsonVal.obj ((String.mk kp.1, vp.1) :: fs), op.2)
                      | _ => none
                  else if e = rbraceChar then
                    some (JsonVal.obj [(String.mk kp.1, vp.1)], rest3)
                  else none
                | [] => none
            else none
          | [] => none
      else none
    | [] => none

/-- `JSON.parse`: one JSON value, possibly surrounded by insignificant
whitespace; anything else (including trailing text) throws, modelled as
`none`. The fuel `4 * (length + 1)` covers any parse that succeeds. -/
def jsonParse (s : String) : Option JsonVal :=
  match jsonP (4 * (s.data.length + 1)) JMode.val s.data with
  | some (v, rest) => if skipWs rest = [] then some v else none
  | none => none

/-- `useLocalStorage`'s read path over arbitrary stored text, at the
JavaScript value level:
`item = getItem(key); return item ? JSON.parse(item) : initialValue`,
with the thrown parse error caught and turned into `initialValue`. An
absent slot, an empty (falsy) stored string, and text `JSON.parse`
rejects all yield the default; any text `JSON.parse` accepts yields the
parsed value unchanged — the code performs no check that the value has
the note-list shape. -/
def loadJson (st : Store) (key : String) (dflt : JsonVal) : JsonVal :=
  (((Store.get st key).bind fun item =>
    if item.data.isEmpty then none else jsonParse item).getD dflt)

/-- The component state relevant to the handlers: the persisted `notes`,
the debounced `input`, the `editId` mode marker and the `sync` pulse
flag. -/
structure ComponentState where
  notes : List Note
  input : String
  editId : Option Nat
  sync : Bool
deriving DecidableEq

/-- `handleAddOrEdit` (minus `e.preventDefault()` and the transition
wrapper, which do not touch the data): reject a blank (post-trim) input;
otherwise in edit mode map-replace the text of notes whose id matches
`editId` and leave edit mode, in create mode append `{id: Date.now(),
text: input}`; in both cases clear the input and raise the sync pulse. -/
def handleAddOrEdit (now : Nat) (s : ComponentState) : ComponentState :=
  if jsTrim s.input = "" then s
  else
    match s.editId with
    | some eid =>
      { s with
        notes := s.notes.map (fun n =>
          if n.id = eid then { n with text := s.input } else n)
        editId := none
        input := ""
        sync := true }
    | none =>
      { s with
        notes := s.notes ++ [{ id := now, text := s.input }]
        input := ""
        sync := true }

/-- `handleDelete id`: filter out every note whose id equals the target and
raise the sync pulse. -/
def handleDelete (x : Nat) (s : ComponentState) : ComponentState :=
  { s with
    notes := s.notes.filter (fun n => n.id != x)
    sync := true }

/-- `handleEdit id`: `notes.find(n => n.id === id)` followed by an
unguarded read of `note.text`. When no note matches, `find` yields
`undefined` and the read throws a TypeError; that error outcome is
modelled as `none`. -/
def handleEdit (x : Nat) (s : ComponentState) : Option ComponentState :=
  match s.notes.find? (fun n => n.id == x) with
  | some note => some { s with input := note.text, editId := some x }
  | none => none

/-- State of the trailing-edge debounce in `handleInput`: at most one
pending `setTimeout` (its fire time and captured value) and the committed
`setInput` events so far, as (time, value) pairs. -/
structure DebounceState where
  pending : Option (Nat × String)
  commits : List (Nat × String)
deriving DecidableEq

/-- A pending timer whose fire time has arrived fires before the next
event is handled, committing its value. -/
def fireDue (s : DebounceState) (t : Nat) : DebounceState :=
  match s.pending with
  | some p =>
    if p.1 ≤ t then { pending := none, commits := s.commits ++ [p] } else s
  | none => s

/-- `handleInput` on a keystroke at time `t` with field value `v`: any
already-due timer has fired; the pending timer is canceled
(`clearTimeout`) and a fresh one is scheduled 100 ms out
(`setTimeout(…, 100)`) capturing `v`. -/
def debounceStep (s : DebounceState) (t : Nat) (v : String) : DebounceState :=
  let s1 := fireDue s t
  { pending := some (t + 100, v), commits := s1.commits }

/-- Run a keystroke sequence through the debounce and let the last pending
timer fire; returns the committed (time, value) events in order. -/
def debounceRun (keys : List (Nat × String)) : List (Nat × String) :=
  let fin := keys.foldl (fun st k => debounceStep st k.1 k.2)
    { pending := none, commits := [] }
  match fin.pending with
  | some p => fin.commits ++ [p]
  | none => fin.commits

/-- An outbound HTTP request as issued by `useFetch`. -/
structure Request where
  url : String
  method : String
  body : String
deriving DecidableEq

/-- One run of the `useFetch` effect body: nothing when the trigger is
false, otherwise a POST with the JSON-serialized note list as body. -/
def useFetchEffect (url : String) (data : List Note) (trigger : Bool) :
    Option Request :=
  if trigger then some { url := url, method := "POST", body := stringifyNotes data }
  else none

/-- The effect runs caused by one mutation pulse: the effect re-runs when
its `[url, data, trigger]` dependencies change, so a mutation
(`setSync(true)`) runs it once with the new notes and a true trigger, and
the 500 ms reset (`setSync(false)`) runs it once more with a false
trigger. The list collects the requests actually sent. -/
def pulseTrace (url : String) (notes : List Note) (sync : Bool) :
    List Request :=
  [useFetchEffect url notes sync, useFetchEffect url notes false].filterMap id

/-! ### Round-trip lemmas for the serialize/parse pair -/

theorem dropLit_append (pre rest : List Char) :
    dropLit pre (pre ++ rest) = some rest := by
  induction pre with
  | nil => rfl
  | cons p ps ih => simp [dropLit, ih]

theorem digitChar_isDigit (m : Nat) (h : m < 10) :
    (Char.ofNat (48 + m)).isDigit = true := by
  interval_cases m <;> decide

theorem digitChar_toNat (m : Nat) (h : m < 10) :
    (Char.ofNat (48 + m)).toNat = 48 + m := by
  interval_cases m <;> decide

theorem digitChar_ne_zero (m : Nat) (h0 : 0 < m) (h : m < 10) :
    Char.ofNat (48 + m) ≠ '0' := by
  interval_cases m <;> decide

theorem parseNatAux_stop (rest : List Char) (acc : Nat)
    (h : ∀ c cs, rest = c :: cs → c.isDigit = false) :
    parseNatAux rest acc = (acc, rest) := by
  cases rest with
  | nil => rfl
  | cons c cs => simp [parseNatAux, h c cs rfl]

theorem parseNatAux_digits (n : Nat) : ∀ (acc : Nat) (rest : List Char),
    parseNatAux (natDigits n ++ rest) acc =
      parseNatAux rest (acc * 10 ^ (natDigits n).length + n) := by
  induction n using Nat.strong_induction_on with
  | _ n ih =>
    intro acc rest
    by_cases h : n < 10
    · rw [natDigits, if_pos h]
      simp only [List.singleton_append, parseNatAux,
        digitChar_isDigit n h, digitChar_toNat n h, if_true,
        List.length_singleton, pow_one]
      congr 1
      omega
    · rw [natDigits, if_neg h, List.append_assoc,
        ih (n / 10) (by omega) acc _]
      have h10 : n % 10 < 10 := by omega
      simp only [List.singleton_append, parseNatAux,
        digitChar_isDigit (n % 10) h10, digitChar_toNat (n % 10) h10,
        if_true, List.length_append, List.length_singleton]
      congr 1
      rw [pow_succ 10 (natDigits (n / 10)).length]
      generalize (10 : Nat) ^ (natDigits (n / 10)).length = K
      have e1 : 48 + n % 10 - 48 = n % 10 := by omega
      rw [e1]
      have e2 : (acc * K + n / 10) * 10 + n % 10 =
          acc * (K * 10) + (10 * (n / 10) + n % 10) := by ring
      rw [e2, Nat.div_add_mod n 10]

theorem natDigits_pos_head (n : Nat) (hn : 0 < n) :
    ∃ c cs, natDigits n = c :: cs ∧ c.isDigit = true ∧ c ≠ '0' := by
  induction n using Nat.strong_induction_on with
  | _ n ih =>
    by_cases h : n < 10
    · exact ⟨Char.ofNat (48 + n), [], by rw [natDigits, if_pos h],
        digitChar_isDigit n h, digitChar_ne_zero n hn h⟩
    · obtain ⟨c, cs, hEq, hd, hz⟩ := ih (n / 10) (by omega) (by omega)
      exact ⟨c, cs ++ [Char.ofNat (48 + n % 10)],
        by rw [natDigits, if_neg h, hEq]; rfl, hd, hz⟩

theorem parseNat_digits (n : Nat) (rest : List Char)
    (hr : ∀ c cs, rest = c :: cs → c.isDigit = false) :
    parseNat (natDigits n ++ rest) = some (n, rest) := by
  by_cases h0 : n = 0
  · subst h0
    rw [natDigits]
    simp [parseNat]
  · obtain ⟨c, cs, hEq, hd, hz⟩ := natDigits_pos_head n (by omega)
    have h1 : parseNatAux ((c :: cs) ++ rest) 0 =
        parseNatAux (cs ++ rest) (c.toNat - 48) := by
      simp [parseNatAux, hd]
    have h2 : parseNatAux ((c :: cs) ++ rest) 0 = (n, rest) := by
      rw [← hEq, parseNatAux_digits, parseNatAux_stop _ _ hr]
      simp
    rw [hEq, List.cons_append, parseNat, if_neg hz, hd, if_pos rfl,
      h1.symm.trans h2]

theorem hexVal_hexDigitChar (k : Nat) (h : k < 16) :
    hexVal (hexDigitChar k) = some k := by
  interval_cases k <;> decide


theorem hexVal_zero : hexVal '0' = some 0 := rfl

theorem psb_quote (fuel : Nat) (rest : List Char) :
    parseStringBody (fuel + 1) (quoteChar :: rest) = some ([], rest) := by
  cases rest with
  | nil => rw [parseStringBody.eq_3, if_pos rfl]
  | cons e rest2 => rw [parseStringBody.eq_4, if_pos rfl]

theorem psb_esc_quote (fuel : Nat) (rest : List Char) :
    parseStringBody (fuel + 1) (backslashChar :: quoteChar :: rest) =
      (parseStringBody fuel rest).map (fun p => (quoteChar :: p.1, p.2)) := by
  rw [parseStringBody.eq_4, if_neg (by decide), if_pos rfl, if_pos rfl]

theorem psb_esc_backslash (fuel : Nat) (rest : List Char) :
    parseStringBody (fuel + 1) (backslashChar :: backslashChar :: rest) =
      (parseStringBody fuel rest).map (fun p => (backslashChar :: p.1, p.2)) := by
  rw [parseStringBody.eq_4, if_neg (by decide), if_pos rfl,
    if_neg (by decide), if_pos rfl]

theorem psb_esc_b (fuel : Nat) (rest : List Char) :
    parseStringBody (fuel + 1) (backslashChar :: 'b' :: rest) =
      (parseStringBody fuel rest).map (fun p => (Char.ofNat 8 :: p.1, p.2)) := by
  rw [parseStringBody.eq_4, if_neg (by decide), if_pos rfl,
    if_neg (by decide), if_neg (by decide), if_neg (by decide), if_pos rfl]

theorem psb_esc_f (fuel : Nat) (rest : List Char) :
    parseStringBody (fuel + 1) (backslashChar :: 'f' :: rest) =
      (parseStringBody fuel rest).map (fun p => (Char.ofNat 12 :: p.1, p.2)) := by
  rw [parseStringBody.eq_4, if_neg (by decide), if_pos rfl,
    if_neg (by decide), if_neg (by decide), if_neg (by decide),
    if_neg (by decide), if_pos rfl]

theorem psb_esc_n (fuel : Nat) (rest : List Char) :
    parseStringBody (fuel + 1) (backslashChar :: 'n' :: rest) =
      (parseStringBody fuel rest).map (fun p => (Char.ofNat 10 :: p.1, p.2)) := by
  rw [parseStringBody.eq_4, if_neg (by decide), if_pos rfl,
    if_neg (by decide), if_neg (by decide), if_neg (by decide),
    if_neg (by decide), if_neg (by decide), if_pos rfl]

theorem psb_esc_r (fuel : Nat) (rest : List Char) :
    parseStringBody (fuel + 1) (backslashChar :: 'r' :: rest) =
      (parseStringBody fuel rest).map (fun p => (Char.ofNat 13 :: p.1, p.2)) := by
  rw [parseStringBody.eq_4, if_neg (by decide), if_pos rfl,
    if_neg (by decide), if_neg (by decide), if_neg (by decide),
    if_neg (by decide), if_neg (by decide), if_neg (by decide), if_pos rfl]

theorem psb_esc_t (fuel : Nat) (rest : List Char) :
    parseStringBody (fuel + 1) (backslashChar :: 't' :: rest) =
      (parseStringBody fuel rest).map (fun p => (Char.ofNat 9 :: p.1, p.2)) := by
  rw [parseStringBody.eq_4, if_neg (by decide), if_pos rfl,
    if_neg (by decide), if_neg (by decide), if_neg (by decide),
    if_neg (by decide), if_neg (by decide), if_neg (by decide),
    if_neg (by decide), if_pos rfl]

theorem psb_esc_u (fuel : Nat) (rest2 rest3 : List Char) (ch : Char)
    (hq : parseHexQuad rest2 = some (ch, rest3)) :
    parseStringBody (fuel + 1) (backslashChar :: 'u' :: rest2) =
      (parseStringBody fuel rest3).map (fun p => (ch :: p.1, p.2)) := by
  rw [parseStringBody.eq_4, if_neg (by decide), if_pos rfl,
    if_neg (by decide), if_neg (by decide), if_neg (by decide),
    if_neg (by decide), if_neg (by decide), if_neg (by decide),
    if_neg (by decide), if_neg (by decide), if_pos rfl, hq]

theorem psb_other (fuel : Nat) (c : Char) (rest : List Char)
    (h1 : ¬ c = quoteChar) (h2 : ¬ c = backslashChar)
    (h3 : ¬ c.toNat < 32) :
    parseStringBody (fuel + 1) (c :: rest) =
      (parseStringBody fuel rest).map (fun p => (c :: p.1, p.2)) := by
  cases rest with
  | nil => rw [parseStringBody.eq_3, if_neg h1, if_neg h2, if_neg h3]
  | cons e rest2 => rw [parseStringBody.eq_4, if_neg h1, if_neg h2, if_neg h3]

theorem parseHexQuad_escape (c : Char) (h8 : c.toNat < 32)
    (tail : List Char) :
    parseHexQuad ('0' :: '0' :: hexDigitChar (c.toNat / 16) ::
      hexDigitChar (c.toNat % 16) :: tail) = some (c, tail) := by
  have hv1 := hexVal_hexDigitChar (c.toNat / 16) (by omega)
  have hv2 := hexVal_hexDigitChar (c.toNat % 16) (by omega)
  simp only [parseHexQuad, hexVal_zero, hv1, hv2]
  have hc : ((0 * 16 + 0) * 16 + c.toNat / 16) * 16 + c.toNat % 16 =
      c.toNat := by omega
  rw [hc, Char.ofNat_toNat]

theorem parseStringBody_escape (cs : List Char) :
    ∀ (fuel : Nat) (rest : List Char), cs.length + 1 ≤ fuel →
    parseStringBody fuel (escapeString cs ++ quoteChar :: rest) =
      some (cs, rest) := by
  induction cs with
  | nil =>
    intro fuel rest hf
    obtain ⟨f, rfl⟩ : ∃ f, fuel = f + 1 := ⟨fuel - 1, by omega⟩
    rw [escapeString, List.flatMap_nil, List.nil_append, psb_quote]
  | cons c cs ih =>
    intro fuel rest hf
    obtain ⟨f, rfl⟩ : ∃ f, fuel = f + 1 := ⟨fuel - 1, by omega⟩
    have hf' : cs.length + 1 ≤ f := by
      simp only [List.length_cons] at hf
      omega
    rw [escapeString, List.flatMap_cons, List.append_assoc]
    have ihr : parseStringBody f (cs.flatMap escapeChar ++ quoteChar :: rest) =
        some (cs, rest) := ih f rest hf'
    by_cases h1 : c = quoteChar
    · subst h1
      rw [escapeChar, if_pos rfl]
      simp only [List.cons_append, List.nil_append]
      rw [psb_esc_quote, ihr]
      rfl
    · by_cases h2 : c = backslashChar
      · subst h2
        rw [escapeChar, if_neg h1, if_pos rfl]
        simp only [List.cons_append, List.nil_append]
        rw [psb_esc_backslash, ihr]
        rfl
      · by_cases h3 : c = Char.ofNat 8
        · subst h3
          rw [escapeChar, if_neg h1, if_neg h2, if_pos rfl]
          simp only [List.cons_append, List.nil_append]
          rw [psb_esc_b, ihr]
          rfl
        · by_cases h4 : c = Char.ofNat 12
          · subst h4
            rw [escapeChar, if_neg h1, if_neg h2, if_neg h3, if_pos rfl]
            simp only [List.cons_append, List.nil_append]
            rw [psb_esc_f, ihr]
            rfl
          · by_cases h5 : c = Char.ofNat 10
            · subst h5
              rw [escapeChar, if_neg h1, if_neg h2, if_neg h3, if_neg h4,
                if_pos rfl]
              simp only [List.cons_append, List.nil_append]
              rw [psb_esc_n, ihr]
              rfl
            · by_cases h6 : c = Char.ofNat 13
              · subst h6
                rw [escapeChar, if_neg h1, if_neg h2, if_neg h3, if_neg h4,
                  if_neg h5, if_pos rfl]
                simp only [List.cons_append, List.nil_append]
                rw [psb_esc_r, ihr]
                rfl
              · by_cases h7 : c = Char.ofNat 9
                · subst h7
                  rw [escapeChar, if_neg h1, if_neg h2, if_neg h3, if_neg h4,
                    if_neg h5, if_neg h6, if_pos rfl]
                  simp only [List.cons_append, List.nil_append]
                  rw [psb_esc_t, ihr]
                  rfl
                · by_cases h8 : c.toNat < 32
                  · rw [escapeChar, if_neg h1, if_neg h2, if_neg h3,
                      if_neg h4, if_neg h5, if_neg h6, if_neg h7, if_pos h8]
                    simp only [List.cons_append, List.nil_append]
                    rw [psb_esc_u f _ _ c (parseHexQuad_escape c h8 _), ihr]
                    rfl
                  · rw [escapeChar, if_neg h1, if_neg h2, if_neg h3,
                      if_neg h4, if_neg h5, if_neg h6, if_neg h7, if_neg h8]
                    simp only [List.cons_append, List.nil_append]
                    rw [psb_other f c _ h1 h2 h8, ihr]
                    rfl

theorem le_length_escapeString (cs : List Char) :
    cs.length ≤ (escapeString cs).length := by
  induction cs with
  | nil => simp [escapeString]
  | cons c cs ih =>
    have h1 : 1 ≤ (escapeChar c).length := by
      rw [escapeChar]
      split_ifs <;> simp
    have ih' : cs.length ≤ (cs.flatMap escapeChar).length := ih
    rw [escapeString, List.flatMap_cons, List.length_append, List.length_cons]
    omega

theorem parseNoteFields_stringify (n : Note) (rest : List Char) :
    parseNoteFields (stringifyNote n ++ rest) = some (n, rest) := by
  have hstop : ∀ c cs, (textKeyLit ++ (escapeString n.text.data ++
      (quoteChar :: rbraceChar :: rest))) = c :: cs → c.isDigit = false := by
    intro c cs h
    simp only [textKeyLit, List.cons_append, List.cons.injEq] at h
    obtain ⟨rfl, -⟩ := h
    decide
  have hfuel : n.text.data.length + 1 ≤
      (escapeString n.text.data ++ (quoteChar :: rbraceChar :: rest)).length := by
    have := le_length_escapeString n.text.data
    simp only [List.length_append, List.length_cons]
    omega
  rw [stringifyNote]
  simp only [List.append_assoc, List.cons_append, List.nil_append]
  unfold parseNoteFields
  rw [dropLit_append]
  simp only [Option.some_bind]
  rw [parseNat_digits n.id _ hstop]
  simp only [Option.some_bind]
  rw [dropLit_append]
  simp only [Option.some_bind]
  rw [parseStringBody_escape n.text.data _ (rbraceChar :: rest) hfuel]
  simp only [Option.some_bind]
  simp

theorem stringifyNote_length_pos (n : Note) : 0 < (stringifyNote n).length := by
  rw [stringifyNote]
  simp [idKeyLit]

theorem le_length_stringifyItems (l : List Note) :
    l.length ≤ (stringifyItems l).length := by
  induction l with
  | nil => simp [stringifyItems]
  | cons n ns ih =>
    cases ns with
    | nil => simpa [stringifyItems] using stringifyNote_length_pos n
    | cons m ms =>
      simp only [stringifyItems, List.length_append, List.length_cons]
      have := stringifyNote_length_pos n
      simp only [List.length_cons] at ih ⊢
      omega

theorem parseItems_stringify : ∀ (l : List Note), l ≠ [] →
    ∀ (fuel : Nat), l.length ≤ fuel →
    parseItems fuel (stringifyItems l ++ [rbrackChar]) =
      some (l, [rbrackChar]) := by
  intro l
  induction l with
  | nil => intro h; exact absurd rfl h
  | cons n ns ih =>
    intro _ fuel hf
    obtain ⟨f, rfl⟩ : ∃ f, fuel = f + 1 :=
      ⟨fuel - 1, by simp only [List.length_cons] at hf; omega⟩
    have hne : ¬ (rbrackChar = ',') := by decide
    cases ns with
    | nil =>
      simp only [stringifyItems, parseItems]
      rw [parseNoteFields_stringify n [rbrackChar]]
      simp only [Option.some_bind]
      simp [hne]
    | cons m ms =>
      simp only [stringifyItems, parseItems, List.append_assoc,
        List.cons_append]
      rw [parseNoteFields_stringify n
        (',' :: (stringifyItems (m :: ms) ++ [rbrackChar]))]
      simp only [Option.some_bind]
      rw [ih (by simp) f (by simp only [List.length_cons] at hf ⊢; omega)]
      simp

theorem parseNotes_stringifyNotes (l : List Note) :
    parseNotes (stringifyNotes l) = some l := by
  cases l with
  | nil => decide
  | cons n ns =>
    have hlen : (n :: ns).length ≤ (stringifyItems (n :: ns)).length :=
      le_length_stringifyItems _
    have hpos : 0 < (stringifyItems (n :: ns)).length :=
      Nat.lt_of_lt_of_le (Nat.succ_pos ns.length) hlen
    have hne : ¬ (stringifyItems (n :: ns) ++ [rbrackChar] = [rbrackChar]) := by
      intro h
      have hl := congrArg List.length h
      rw [List.length_append, List.length_singleton] at hl
      omega
    have hfuel : (n :: ns).length ≤
        (stringifyItems (n :: ns) ++ [rbrackChar]).length := by
      rw [List.length_append, List.length_singleton]
      omega
    rw [stringifyNotes]
    show parseNotesList (lbrackChar :: (stringifyItems (n :: ns) ++
      [rbrackChar])) = some (n :: ns)
    rw [parseNotesList.eq_2, if_pos rfl, if_neg hne,
      parseItems_stringify (n :: ns) (by simp) _ hfuel]
    simp

/-! ### Helper lemmas for the delete invariant -/

theorem length_filter_not_add_countP (p : Note → Bool) (l : List Note) :
    (l.filter fun a => !(p a)).length + l.countP p = l.length := by
  induction l with
  | nil => rfl
  | cons a l ih =>
    cases hpa : p a <;>
      simp [List.filter_cons, List.countP_cons, hpa] <;>
      omega

theorem countP_eq_one_of_nodup_ids (l : List Note) (x : Nat)
    (hnd : (l.map Note.id).Nodup) (hmem : ∃ n ∈ l, n.id = x) :
    l.countP (fun n => n.id == x) = 1 := by
  induction l with
  | nil => simp at hmem
  | cons a l ih =>
    rw [List.map_cons, List.nodup_cons] at hnd
    obtain ⟨ha, hl⟩ := hnd
    rw [List.countP_cons]
    obtain ⟨n, hn, hid⟩ := hmem
    rcases List.mem_cons.mp hn with rfl | hn2
    · rw [if_pos (by simp [hid])]
      have h0 : l.countP (fun n => n.id == x) = 0 := by
        rw [List.countP_eq_zero]
        intro m hm
        simp only [beq_iff_eq]
        intro hmx
        exact ha (List.mem_map.mpr ⟨m, hm, by rw [hmx, ← hid]⟩)
      omega
    · have hax : ¬ (a.id = x) := by
        intro he
        exact ha (List.mem_map.mpr ⟨n, hn2, by rw [hid, ← he]⟩)
      rw [if_neg (by simp [hax]), ih hl ⟨n, hn2, hid⟩]

/-! ### The claims -/

/-- Claim C1: for every note list and every non-blank (post-trim) committed
input, submitting in create mode (`editId` unset) appends exactly one new
note at the end, with the committed input as text and the current
timestamp as id; under the precondition that no existing id equals that
timestamp, the new id is fresh. -/
theorem handleAddOrEdit_create_appends (s : ComponentState) (now : Nat)
    (hmode : s.editId = none) (hne : jsTrim s.input ≠ "")
    (hfresh : ∀ n ∈ s.notes, n.id ≠ now) :
    (handleAddOrEdit now s).notes = s.notes ++ [{ id := now, text := s.input }]
  ∧ (handleAddOrEdit now s).notes.length = s.notes.length + 1
  ∧ now ∉ s.notes.map Note.id := by
  unfold handleAddOrEdit
  rw [if_neg hne, hmode]
  refine ⟨rfl, by simp, ?_⟩
  intro hmem
  rw [List.mem_map] at hmem
  obtain ⟨n, hn, hid⟩ := hmem
  exact hfresh n hn hid

theorem handleAddOrEdit_create_appends_witness :
    (handleAddOrEdit 7 ⟨[⟨5, "x"⟩], "hello", none, false⟩).notes =
      [⟨5, "x"⟩] ++ [{ id := 7, text := "hello" }]
  ∧ (handleAddOrEdit 7 ⟨[⟨5, "x"⟩], "hello", none, false⟩).notes.length =
      ([⟨5, "x"⟩] : List Note).length + 1
  ∧ 7 ∉ ([⟨5, "x"⟩] : List Note).map Note.id :=
  handleAddOrEdit_create_appends ⟨[⟨5, "x"⟩], "hello", none, false⟩ 7 rfl
    (by decide) (by decide)

/-- Claim C2: for every note list containing an entry with id X, submitting
in edit mode with `editId = X` and a non-blank (post-trim) committed input
keeps the length, gives every entry with id X the committed text in place,
leaves every entry with a different id unchanged in its position, and
resets `editId` to unset. -/
theorem handleAddOrEdit_edit_updates (s : ComponentState) (now x : Nat)
    (hmode : s.editId = some x) (hne : jsTrim s.input ≠ "")
    (_hmem : ∃ n ∈ s.notes, n.id = x) :
    (handleAddOrEdit now s).notes.length = s.notes.length
  ∧ (∀ (i : Nat) (n : Note), s.notes[i]? = some n → n.id = x →
      (handleAddOrEdit now s).notes[i]? = some { n with text := s.input })
  ∧ (∀ (i : Nat) (n : Note), s.notes[i]? = some n → n.id ≠ x →
      (handleAddOrEdit now s).notes[i]? = some n)
  ∧ (handleAddOrEdit now s).editId = none := by
  unfold handleAddOrEdit
  rw [if_neg hne, hmode]
  refine ⟨by simp, ?_, ?_, rfl⟩
  · intro i n hi hid
    show (s.notes.map fun n =>
      if n.id = x then { n with text := s.input } else n)[i]? = _
    rw [List.getElem?_map, hi]
    simp [if_pos hid]
  · intro i n hi hid
    show (s.notes.map fun n =>
      if n.id = x then { n with text := s.input } else n)[i]? = _
    rw [List.getElem?_map, hi]
    simp [if_neg hid]

theorem handleAddOrEdit_edit_updates_witness :
    (handleAddOrEdit 9 ⟨[⟨1, "a"⟩, ⟨2, "b"⟩], "new", some 2, false⟩).notes.length
      = ([⟨1, "a"⟩, ⟨2, "b"⟩] : List Note).length
  ∧ (handleAddOrEdit 9 ⟨[⟨1, "a"⟩, ⟨2, "b"⟩], "new", some 2, false⟩).notes[1]?
      = some { (⟨2, "b"⟩ : Note) with text := "new" }
  ∧ (handleAddOrEdit 9 ⟨[⟨1, "a"⟩, ⟨2, "b"⟩], "new", some 2, false⟩).notes[0]?
      = some ⟨1, "a"⟩
  ∧ (handleAddOrEdit 9 ⟨[⟨1, "a"⟩, ⟨2, "b"⟩], "new", some 2, false⟩).editId
      = none := by
  obtain ⟨h1, h2, h3, h4⟩ :=
    handleAddOrEdit_edit_updates ⟨[⟨1, "a"⟩, ⟨2, "b"⟩], "new", some 2, false⟩
      9 2 rfl (by decide) (by decide)
  exact ⟨h1, h2 1 ⟨2, "b"⟩ rfl rfl, h3 0 ⟨1, "a"⟩ rfl (by decide), h4⟩

/-- Claim C3 counterexample: with two notes sharing id 1, deleting id 1
removes both, so the length does not decrease by exactly one although an
entry with id 1 was present. -/
theorem handleDelete_duplicate_ids_counterexample :
    (∃ n ∈ ([⟨1, "a"⟩, ⟨1, "b"⟩] : List Note), n.id = 1)
  ∧ (handleDelete 1 ⟨[⟨1, "a"⟩, ⟨1, "b"⟩], "", none, false⟩).notes.length ≠
      ([⟨1, "a"⟩, ⟨1, "b"⟩] : List Note).length - 1 := by
  decide

/-- Claim C3 (amended): deleting id X removes every note with that id — so
no entry with id X remains and the relative order of the rest is
preserved — and shrinks the list by the number of entries whose id is X:
exactly one when the ids in the list are pairwise distinct and X is
present, and zero (a no-op) when X is absent. -/
theorem handleDelete_spec (s : ComponentState) (x : Nat) :
    (∀ n ∈ (handleDelete x s).notes, n.id ≠ x)
  ∧ List.Sublist (handleDelete x s).notes s.notes
  ∧ (handleDelete x s).notes.length +
      s.notes.countP (fun n => n.id == x) = s.notes.length
  ∧ ((s.notes.map Note.id).Nodup → (∃ n ∈ s.notes, n.id = x) →
      (handleDelete x s).notes.length + 1 = s.notes.length)
  ∧ ((∀ n ∈ s.notes, n.id ≠ x) → (handleDelete x s).notes = s.notes) := by
  have hd : (handleDelete x s).notes = s.notes.filter (fun n => n.id != x) :=
    rfl
  refine ⟨?_, ?_, ?_, ?_, ?_⟩
  · intro n hn
    rw [hd, List.mem_filter] at hn
    simpa using hn.2
  · rw [hd]
    exact List.filter_sublist _
  · rw [hd]
    exact length_filter_not_add_countP (fun n => n.id == x) s.notes
  · intro hnd hmem
    have hc := countP_eq_one_of_nodup_ids s.notes x hnd hmem
    have hl := length_filter_not_add_countP (fun n => n.id == x) s.notes
    rw [hc] at hl
    rw [hd]
    exact hl
  · intro hnone
    rw [hd, List.filter_eq_self]
    intro n hn
    simpa using hnone n hn

theorem handleDelete_spec_witness :
    (handleDelete 1 ⟨[⟨1, "a"⟩, ⟨2, "b"⟩], "", none, false⟩).notes.length + 1 =
      ([⟨1, "a"⟩, ⟨2, "b"⟩] : List Note).length
  ∧ (handleDelete 9 ⟨[⟨1, "a"⟩, ⟨2, "b"⟩], "", none, false⟩).notes =
      [⟨1, "a"⟩, ⟨2, "b"⟩] :=
  ⟨(handleDelete_spec ⟨[⟨1, "a"⟩, ⟨2, "b"⟩], "", none, false⟩ 1).2.2.2.1
      (by decide) (by decide),
   (handleDelete_spec ⟨[⟨1, "a"⟩, ⟨2, "b"⟩], "", none, false⟩ 9).2.2.2.2
      (by decide)⟩

/-- Claim C4: saving any note list to a storage slot and loading the same
slot back (with any default) returns the same list — same ids, texts and
order — i.e. the `JSON.stringify`/`JSON.parse` pair of `useLocalStorage`
round-trips. -/
theorem localStorage_round_trip (st : Store) (key : String)
    (dflt l : List Note) : load (save st key l) key dflt = l := by
  have h1 : Store.get (save st key l) key = some (stringifyNotes l) := by
    unfold save Store.get
    rw [List.find?_cons_of_pos _ (by simp)]
    rfl
  have h3 : (stringifyNotes l).data ≠ [] := by
    rw [stringifyNotes]
    simp
  unfold load
  rw [h1]
  simp [h3, parseNotes_stringifyNotes]

/-- Claim C5 counterexample: the stored text `5` fails to parse as the
expected structured format (the note-list shape), yet the read path does
not return the default: `JSON.parse` accepts `5`, the code has no shape
check, and the number 5 is returned — not the default empty list. -/
theorem load_shape_unchecked_counterexample :
    parseNotes "5" = none
  ∧ jsonParse "5" = some (JsonVal.num "5")
  ∧ loadJson [("catatan", "5")] "catatan" (JsonVal.arr []) = JsonVal.num "5"
  ∧ JsonVal.num "5" ≠ JsonVal.arr [] :=
  ⟨rfl, rfl, rfl, fun h => JsonVal.noConfusion h⟩

/-- Claim C5 (amended): `load(key, default)` returns the default when the
slot is absent, and when the stored text is not valid JSON — the
`JSON.parse` error is swallowed, not surfaced; but when the stored text
is valid JSON of any shape, the parsed value is returned as-is with no
check against the expected structured format (stored text `5` yields the
number 5, not the default). Loading the notes slot from an empty or
absent store deterministically yields the empty list. -/
theorem loadJson_default_spec :
    (∀ (st : Store) (key : String) (dflt : JsonVal),
      Store.get st key = none → loadJson st key dflt = dflt)
  ∧ (∀ (st : Store) (key : String) (dflt : JsonVal) (item : String),
      Store.get st key = some item → jsonParse item = none →
      loadJson st key dflt = dflt)
  ∧ (∀ (st : Store) (key : String) (dflt : JsonVal) (item : String)
        (v : JsonVal),
      Store.get st key = some item → jsonParse item = some v →
      loadJson st key dflt = v)
  ∧ loadJson [] "catatan" (JsonVal.arr []) = JsonVal.arr [] := by
  refine ⟨?_, ?_, ?_, rfl⟩
  · intro st key d h
    unfold loadJson
    rw [h]
    rfl
  · intro st key d item h hp
    unfold loadJson
    rw [h]
    simp only [Option.some_bind]
    cases hbe : item.data.isEmpty
    · simp [hbe, hp]
    · simp [hbe]
  · intro st key d item v h hp
    unfold loadJson
    rw [h]
    simp only [Option.some_bind]
    cases hbe : item.data.isEmpty
    · simp [hbe, hp]
    · have he : item = "" := by
        cases item with
        | mk d2 =>
          cases d2 with
          | nil => rfl
          | cons a as => simp at hbe
      rw [he] at hp
      have hnone : jsonParse "" = none := rfl
      rw [hnone] at hp
      exact Option.noConfusion hp

theorem loadJson_default_witness :
    loadJson [] "k" JsonVal.null = JsonVal.null
  ∧ loadJson [("catatan", "oops")] "catatan" (JsonVal.arr []) = JsonVal.arr []
  ∧ loadJson [("catatan", "[ ]")] "catatan" JsonVal.null = JsonVal.arr []
  ∧ loadJson [("catatan", "[\x7b\"text\":\"a\",\"id\":1\x7d]")] "catatan"
      JsonVal.null =
      JsonVal.arr [JsonVal.obj [("text", JsonVal.str "a"),
        ("id", JsonVal.num "1")]] :=
  ⟨loadJson_default_spec.1 [] "k" JsonVal.null rfl,
   loadJson_default_spec.2.1 [("catatan", "oops")] "catatan" (JsonVal.arr [])
     "oops" rfl rfl,
   loadJson_default_spec.2.2.1 [("catatan", "[ ]")] "catatan" JsonVal.null
     "[ ]" (JsonVal.arr []) rfl rfl,
   loadJson_default_spec.2.2.1
     [("catatan", "[\x7b\"text\":\"a\",\"id\":1\x7d]")] "catatan"
     JsonVal.null "[\x7b\"text\":\"a\",\"id\":1\x7d]"
     (JsonVal.arr [JsonVal.obj [("text", JsonVal.str "a"),
       ("id", JsonVal.num "1")]]) rfl rfl⟩

/-- Claim C6: submitting with an input that trims to the empty string
leaves the whole component state unchanged — list and length included —
in create mode and in edit mode alike, with no error channel. -/
theorem emptySubmit_noop (s : ComponentState) (now : Nat)
    (h : jsTrim s.input = "") : handleAddOrEdit now s = s := by
  unfold handleAddOrEdit
  rw [if_pos h]

theorem emptySubmit_noop_witness :
    handleAddOrEdit 3 ⟨[⟨1, "a"⟩], "  ", some 1, false⟩ =
      ⟨[⟨1, "a"⟩], "  ", some 1, false⟩
  ∧ handleAddOrEdit 3 ⟨[⟨1, "a"⟩], "", none, false⟩ =
      ⟨[⟨1, "a"⟩], "", none, false⟩ :=
  ⟨emptySubmit_noop ⟨[⟨1, "a"⟩], "  ", some 1, false⟩ 3 (by decide),
   emptySubmit_noop ⟨[⟨1, "a"⟩], "", none, false⟩ 3 rfl⟩

/-- Claim C7: for keystrokes at t = 0, 30, 60, 90 ms under the 100 ms
trailing-edge debounce (single pending timer, canceled and rescheduled on
every keystroke) and no further input, the committed value updates exactly
once, at t = 190 ms, to the last keystroke's value. -/
theorem debounce_commits_once (v0 v1 v2 v3 : String) :
    debounceRun [(0, v0), (30, v1), (60, v2), (90, v3)] = [(190, v3)] := rfl

/-- Claim C8: after a mutation (add/edit with non-blank input, or delete)
the pulse — the effect run with the trigger raised followed by the run
after the 500 ms reset — sends exactly one POST whose body is the
serialization of the post-mutation note list; and no send is ever
attempted while the trigger flag is false. -/
theorem notifier_pulse (url : String) (s : ComponentState) (now x : Nat) :
    (jsTrim s.input ≠ "" →
      pulseTrace url (handleAddOrEdit now s).notes (handleAddOrEdit now s).sync
        = [{ url := url, method := "POST",
             body := stringifyNotes (handleAddOrEdit now s).notes }])
  ∧ pulseTrace url (handleDelete x s).notes (handleDelete x s).sync =
      [{ url := url, method := "POST",
         body := stringifyNotes (handleDelete x s).notes }]
  ∧ (∀ data : List Note, useFetchEffect url data false = none) := by
  refine ⟨?_, rfl, fun _ => rfl⟩
  intro h
  have hs : (handleAddOrEdit now s).sync = true := by
    unfold handleAddOrEdit
    rw [if_neg h]
    cases hm : s.editId <;> rfl
  rw [hs]
  rfl

theorem notifier_pulse_witness :
    pulseTrace "u" (handleAddOrEdit 3 ⟨[], "hi", none, false⟩).notes
        (handleAddOrEdit 3 ⟨[], "hi", none, false⟩).sync =
      [{ url := "u", method := "POST",
         body := stringifyNotes (handleAddOrEdit 3 ⟨[], "hi", none, false⟩).notes }] :=
  (notifier_pulse "u" ⟨[], "hi", none, false⟩ 3 0).1 (by decide)

/-- Claim C9: requesting edit of an id that matches no note is unguarded:
the lookup finds no record and the subsequent read of the record's text
faults (modelled as the `none` outcome of `handleEdit`), so the operation
is not a safe no-op. -/
theorem handleEdit_missing_id_error (s : ComponentState) (x : Nat)
    (h : ∀ n ∈ s.notes, n.id ≠ x) :
    s.notes.find? (fun n => n.id == x) = none ∧ handleEdit x s = none := by
  have hf : s.notes.find? (fun n => n.id == x) = none := by
    rw [List.find?_eq_none]
    intro n hn
    simp [h n hn]
  refine ⟨hf, ?_⟩
  unfold handleEdit
  rw [hf]

theorem handleEdit_missing_id_error_witness :
    ([⟨1, "a"⟩] : List Note).find? (fun n => n.id == 2) = none
  ∧ handleEdit 2 ⟨[⟨1, "a"⟩], "", none, false⟩ = none :=
  handleEdit_missing_id_error ⟨[⟨1, "a"⟩], "", none, false⟩ 2 (by decide)

/-- Claim C10: submitting a non-blank input while `editId` points at an id
no note carries leaves the note list unchanged, exits edit mode, clears
the input, and still raises the sync pulse, which sends the unchanged
list. -/
theorem danglingEdit_submit (s : ComponentState) (now x : Nat) (url : String)
    (hmode : s.editId = some x) (hmiss : ∀ n ∈ s.notes, n.id ≠ x)
    (hne : jsTrim s.input ≠ "") :
    (handleAddOrEdit now s).notes = s.notes
  ∧ (handleAddOrEdit now s).editId = none
  ∧ (handleAddOrEdit now s).input = ""
  ∧ (handleAddOrEdit now s).sync = true
  ∧ pulseTrace url (handleAddOrEdit now s).notes (handleAddOrEdit now s).sync
      = [{ url := url, method := "POST", body := stringifyNotes s.notes }] := by
  have hmap : (s.notes.map fun n =>
      if n.id = x then { n with text := s.input } else n) = s.notes := by
    conv_rhs => rw [← List.map_id s.notes]
    apply List.map_congr_left
    intro n hn
    rw [if_neg (hmiss n hn)]
    rfl
  unfold handleAddOrEdit
  rw [if_neg hne, hmode]
  refine ⟨hmap, rfl, rfl, rfl, ?_⟩
  show pulseTrace url (s.notes.map fun n =>
      if n.id = x then { n with text := s.input } else n) true =
    [{ url := url, method := "POST", body := stringifyNotes s.notes }]
  rw [hmap]
  rfl

theorem danglingEdit_submit_witness :
    (handleAddOrEdit 3 ⟨[⟨1, "a"⟩], "zz", some 5, false⟩).notes = [⟨1, "a"⟩]
  ∧ (handleAddOrEdit 3 ⟨[⟨1, "a"⟩], "zz", some 5, false⟩).editId = none
  ∧ (handleAddOrEdit 3 ⟨[⟨1, "a"⟩], "zz", some 5, false⟩).input = ""
  ∧ (handleAddOrEdit 3 ⟨[⟨1, "a"⟩], "zz", some 5, false⟩).sync = true
  ∧ pulseTrace "u" (handleAddOrEdit 3 ⟨[⟨1, "a"⟩], "zz", some 5, false⟩).notes
      (handleAddOrEdit 3 ⟨[⟨1, "a"⟩], "zz", some 5, false⟩).sync =
      [{ url := "u", method := "POST", body := stringifyNotes [⟨1, "a"⟩] }] :=
  danglingEdit_submit ⟨[⟨1, "a"⟩], "zz", some 5, false⟩ 3 5 "u" rfl (by decide)
    (by decide)

end Catatan
